import Mathlib

/-!
# Verification of the Space-Travel software rasterizer

A shallow embedding of the rendering core of the Graphics-Space-Travel
repository (a real-time software rasterizer for a procedurally shaded solar
system), together with proofs and refutations of the specification claims.

Embedding conventions:
* The source performs its geometric arithmetic on f32.  All concrete inputs
  appearing in the claims are small dyadic rationals on which every f32
  operation performed by the rasterizer is exact, so f32 arithmetic is
  modelled by exact rational arithmetic on those values.
* Machine integers (i32, u32, usize) are modelled by Int / Nat; the Rust
  saturating float-to-unsigned cast is modelled by Int.toNat, which clamps
  negative values to 0 exactly as Rust does.
* The two transcendental spots of the code (exp in the Gaussian kernel,
  sqrt in normal renormalisation) are modelled over the reals.
* Fallible numeric operations (f32 division producing a non-finite value)
  are modelled with Option: none stands for the non-finite (inf / NaN)
  outcome of dividing by zero.
-/

attribute [local semireducible] Rat.add Rat.mul Rat.inv Rat.sub

namespace SpaceTravel

/-- A 3-component vector of rationals, mirroring nalgebra Vec3 (x, y, z). -/
abbrev V3 : Type := ℚ × ℚ × ℚ

/-- x component. -/
def vx (v : V3) : ℚ := v.1

/-- y component. -/
def vy (v : V3) : ℚ := v.2.1

/-- z component. -/
def vz (v : V3) : ℚ := v.2.2

/-- The vertex record consumed by the rasterizer (vertex.rs / triangle.rs):
object-space position, texture coordinates and base color together with the
screen-space transformed position and the transformed normal produced by the
vertex shader. -/
structure Vtx where
  position : V3
  tex_coords : ℚ × ℚ
  color : ℕ
  transformed_position : V3
  transformed_normal : V3
deriving DecidableEq, Repr

/-- The fragment record produced by the rasterizer (fragment.rs).  The pixel
coordinate is the integer (x, y) the source stores as Vec2::new(x as f32,
y as f32).  The source fragment stores the renormalised interpolated normal
and the lighting intensity; both are functions (involving a square root) of
the raw interpolated normal recorded here, see fragIntensity below. -/
structure Frag where
  x : ℤ
  y : ℤ
  color : ℕ
  depth : ℚ
  normal : V3
  world_position : V3
  uv : ℚ × ℚ
deriving DecidableEq, Repr

/-! ## triangle.rs -/

/-- edge_function (triangle.rs, lines 81-83):
(c.x - a.x) * (b.y - a.y) - (c.y - a.y) * (b.x - a.x). -/
def edge_function (a b c : V3) : ℚ :=
  (vx c - vx a) * (vy b - vy a) - (vy c - vy a) * (vx b - vx a)

/-- The early frustum-culling test of triangle (triangle.rs, lines 12-17).
Note the hardcoded extents 800 (x) and 600 (y). -/
def culled (a b c : V3) : Bool :=
  (vx a < 0 && vx b < 0 && vx c < 0) ||
  (vx a > 800 && vx b > 800 && vx c > 800) ||
  (vy a < 0 && vy b < 0 && vy c < 0) ||
  (vy a > 600 && vy b > 600 && vy c > 600)

/-- Integer floor of a rational, modelling f32 floor followed by the exact
in-range cast to i32. -/
def ratFloor (q : ℚ) : ℤ := Rat.floor q

/-- Integer ceiling of a rational, modelling f32 ceil followed by the exact
in-range cast to i32. -/
def ratCeil (q : ℚ) : ℤ := -Rat.floor (-q)

/-- calculate_bounding_box (triangle.rs, lines 72-79): floor of the
componentwise minimum and ceil of the componentwise maximum, in the source
association order v1.min(v2).min(v3); returns (min_x, min_y, max_x, max_y). -/
def calculate_bounding_box (v1 v2 v3 : V3) : ℤ × ℤ × ℤ × ℤ :=
  (ratFloor (min (min (vx v1) (vx v2)) (vx v3)),
   ratFloor (min (min (vy v1) (vy v2)) (vy v3)),
   ratCeil (max (max (vx v1) (vx v2)) (vx v3)),
   ratCeil (max (max (vy v1) (vy v2)) (vy v3)))

/-- The inclusive integer range lo..=hi of the Rust for loops (empty when
hi < lo). -/
def intRange (lo hi : ℤ) : List ℤ :=
  (List.range (hi + 1 - lo).toNat).map (fun (i : ℕ) => lo + (i : ℤ))

/-- The three barycentric weights of point p, each an edge function
normalised by the signed area edge_function a b c (triangle.rs,
lines 36-38). -/
def baryWeights (a b c p : V3) : ℚ × ℚ × ℚ :=
  (edge_function b c p / edge_function a b c,
   edge_function c a p / edge_function a b c,
   edge_function a b p / edge_function a b c)

/-- The sample center of integer pixel (x, y): the source starts its scan
point at (min_x + 0.5, min_y + 0.5, 0.0) and advances by 1.0 per pixel. -/
def sampleCenter (x y : ℤ) : V3 := ((x : ℚ) + 1/2, (y : ℚ) + 1/2, 0)

/-- The barycentric weights of the sample center of pixel (x, y). -/
def pixelWeights (a b c : V3) (x y : ℤ) : ℚ × ℚ × ℚ :=
  baryWeights a b c (sampleCenter x y)

/-- Pixel (x, y) passes the inclusion test of triangle (triangle.rs,
line 40): all three barycentric weights of its sample center are
non-negative. -/
def insideTri (v1 v2 v3 : Vtx) (x y : ℤ) : Prop :=
  0 ≤ (pixelWeights v1.transformed_position v2.transformed_position
        v3.transformed_position x y).1 ∧
  0 ≤ (pixelWeights v1.transformed_position v2.transformed_position
        v3.transformed_position x y).2.1 ∧
  0 ≤ (pixelWeights v1.transformed_position v2.transformed_position
        v3.transformed_position x y).2.2

instance insideTriDec (v1 v2 v3 : Vtx) (x y : ℤ) :
    Decidable (insideTri v1 v2 v3 x y) :=
  inferInstanceAs (Decidable (_ ∧ _ ∧ _))

/-- The fragment emitted for an accepted pixel (x, y) (triangle.rs,
lines 41-63): position (x, y), v1's base color, and the depth, raw normal,
world position and texture coordinates interpolated by the barycentric
weights of the sample center. -/
def fragAt (v1 v2 v3 : Vtx) (x y : ℤ) : Frag :=
  let a := v1.transformed_position
  let b := v2.transformed_position
  let c := v3.transformed_position
  let w := pixelWeights a b c x y
  { x := x, y := y, color := v1.color,
    depth := vz a * w.1 + vz b * w.2.1 + vz c * w.2.2,
    normal := (vx v1.transformed_normal * w.1
                 + vx v2.transformed_normal * w.2.1
                 + vx v3.transformed_normal * w.2.2,
               vy v1.transformed_normal * w.1
                 + vy v2.transformed_normal * w.2.1
                 + vy v3.transformed_normal * w.2.2,
               vz v1.transformed_normal * w.1
                 + vz v2.transformed_normal * w.2.1
                 + vz v3.transformed_normal * w.2.2),
    world_position := (vx v1.position * w.1 + vx v2.position * w.2.1
                         + vx v3.position * w.2.2,
                       vy v1.position * w.1 + vy v2.position * w.2.1
                         + vy v3.position * w.2.2,
                       vz v1.position * w.1 + vz v2.position * w.2.1
                         + vz v3.position * w.2.2),
    uv := (w.1 * v1.tex_coords.1 + w.2.1 * v2.tex_coords.1
             + w.2.2 * v3.tex_coords.1,
           w.1 * v1.tex_coords.2 + w.2.1 * v2.tex_coords.2
             + w.2.2 * v3.tex_coords.2) }

/-- The body of the per-pixel loop of triangle (triangle.rs, lines 34-66):
emit the interpolated fragment when all three barycentric weights of the
sample center are non-negative. -/
def pixelFrag (v1 v2 v3 : Vtx) (x y : ℤ) : Option Frag :=
  if insideTri v1 v2 v3 x y then some (fragAt v1 v2 v3 x y) else none

/-- triangle (triangle.rs, lines 7-71): early frustum cull against the
hardcoded 800 x 600 rectangle, degenerate-area rejection with epsilon 0.1,
then the bounding-box scan emitting one fragment per accepted pixel. -/
def triangle (v1 v2 v3 : Vtx) : List Frag :=
  let a := v1.transformed_position
  let b := v2.transformed_position
  let c := v3.transformed_position
  if culled a b c then [] else
  let bb := calculate_bounding_box a b c
  let triangle_area := edge_function a b c
  if |triangle_area| < 1/10 then [] else
  (intRange bb.2.1 bb.2.2.2).flatMap fun y =>
    (intRange bb.1 bb.2.2.1).filterMap fun x => pixelFrag v1 v2 v3 x y

/-! ## main.rs: the per-fragment framebuffer write of render -/

/-- The framebuffer (framebuffer.rs is not among the provided sources).
Modelled from the spec: a width x height color buffer, a parallel emissive
buffer, and a parallel depth buffer whose cleared state is a far sentinel
(modelled as none) accepting any finite depth. -/
structure FB where
  width : ℕ
  height : ℕ
  color : ℕ → ℕ → ℕ
  emissive : ℕ → ℕ → ℕ
  depth : ℕ → ℕ → Option ℚ

/-- Modelled from the spec: the cleared framebuffer, all colors at the
background color, zero emissive buffer, depth buffer at the far sentinel. -/
def FB.cleared (w h bg : ℕ) : FB :=
  { width := w, height := h, color := fun _ _ => bg,
    emissive := fun _ _ => 0, depth := fun _ _ => none }

/-- Whether a write of depth d is accepted against the stored depth:
the far sentinel accepts everything, otherwise strictly-nearer wins. -/
def depthAccepts (stored : Option ℚ) (d : ℚ) : Bool :=
  match stored with
  | none => true
  | some d0 => decide (d < d0)

/-- Modelled from the spec: Framebuffer::point writes the current draw color,
the passed emission and the depth at (x, y) when (x, y) is in bounds and the
depth test passes; otherwise it is a silent no-op. -/
def FB.point (fb : FB) (x y : ℕ) (d : ℚ) (em : ℕ) (cur : ℕ) : FB :=
  if x < fb.width ∧ y < fb.height ∧ depthAccepts (fb.depth x y) d then
    { fb with
      color := fun i j => if i = x ∧ j = y then cur else fb.color i j,
      emissive := fun i j => if i = x ∧ j = y then em else fb.emissive i j,
      depth := fun i j => if i = x ∧ j = y then some d else fb.depth i j }
  else fb

/-- The per-fragment write step of render (main.rs, lines 294-303): the
fragment's f32 pixel coordinates are cast to usize with Rust saturating
semantics (negative values clamp to 0, modelled by Int.toNat), the result is
bounds-checked against the framebuffer, and on success Framebuffer::point is
called with the shaded color. -/
def renderFragmentWrite (fb : FB) (fx fy : ℤ) (d : ℚ) (em : ℕ) (shaded : ℕ) :
    FB :=
  let x := fx.toNat
  let y := fy.toNat
  if x < fb.width ∧ y < fb.height then fb.point x y d em shaded else fb

/-! ## main.rs: bloom blending -/

/-- Channel extraction (base_color >> shift) & 0xFF of blend_bloom
(main.rs, lines 259-261); masking with 0xFF keeps the low 8 bits, i.e. the
value mod 256. -/
def rgbChannel (c : ℕ) (shift : ℕ) : ℕ := (c >>> shift) % 256

/-- One channel of blend_bloom (main.rs, lines 255-266): the f32 value
min(min(channel + intensity * 0.8, 255 * 1.2), 255.0) truncated back to u32
(the value is non-negative, so the Rust cast is the floor). -/
def blendChannel (ch e : ℕ) : ℕ :=
  (Rat.floor (min (min ((ch : ℚ) + (e : ℚ) * (8/10)) (255 * (12/10))) 255)).toNat

/-- blend_bloom (main.rs, lines 255-269): blend the bloom intensity into the
three channels and repack them as (r << 16) | (g << 8) | b. -/
def blend_bloom (base_color bloom_intensity : ℕ) : ℕ :=
  (blendChannel (rgbChannel base_color 16) bloom_intensity) <<< 16 |||
  (blendChannel (rgbChannel base_color 8) bloom_intensity) <<< 8 |||
  blendChannel (rgbChannel base_color 0) bloom_intensity

/-! ## main.rs: the Gaussian kernel of the bloom blur -/

/-- The argument handed to exp by create_gaussian_kernel (main.rs,
lines 236-238): exp_numerator = -((x - mean)^2) / (2 sigma^2) and the code
then calls (-exp_numerator).exp(), so the argument is the second negation. -/
def kernelExpArg (size : ℕ) (sigma : ℚ) (x : ℕ) : ℚ :=
  let mean : ℚ := ((size : ℚ) - 1) / 2
  let exp_numerator := -(((x : ℚ) - mean) * ((x : ℚ) - mean)) / (2 * sigma * sigma)
  Neg.neg exp_numerator

/-- The real-valued kernel weight computed by create_gaussian_kernel
(main.rs, lines 231-243) before the truncating u32 cast:
coefficient * exp(kernelExpArg) * 255 with
coefficient = 1 / sqrt(2 pi sigma^2). -/
noncomputable def kernelWeight (size : ℕ) (sigma : ℚ) (x : ℕ) : ℝ :=
  (1 / Real.sqrt (2 * Real.pi * (sigma : ℝ) * (sigma : ℝ)))
    * Real.exp ((kernelExpArg size sigma x : ℚ)) * 255

/-! ## triangle.rs: lighting intensity of an emitted fragment -/

/-- The lighting intensity the source stores in a fragment (triangle.rs,
lines 42-50), as a function of the raw interpolated normal: the normal is
renormalised (division by its Euclidean length) and dotted with the fixed
light direction (0, 0, 1), and the result is clamped below at 0 by f32 max.
For the zero normal the normalisation produces NaN components, the dot
product is NaN, and Rust f32 max(NaN, 0.0) returns 0.0; this is the
zero-length branch. -/
noncomputable def fragIntensity (n : V3) : ℝ :=
  let len : ℝ := Real.sqrt (((vx n : ℝ)) ^ 2 + ((vy n : ℝ)) ^ 2 + ((vz n : ℝ)) ^ 2)
  if len = 0 then 0 else max ((vz n : ℝ) / len) 0

/-! ## main.rs: world_to_screen and its perspective division -/

/-- A 4-component rational vector (nalgebra Vec4). -/
structure V4 where
  x : ℚ
  y : ℚ
  z : ℚ
  w : ℚ
deriving DecidableEq, Repr

/-- A 4x4 rational matrix, fields in the row-major order of the
nalgebra Mat4::new constructor. -/
structure Mat4 where
  m00 : ℚ
  m01 : ℚ
  m02 : ℚ
  m03 : ℚ
  m10 : ℚ
  m11 : ℚ
  m12 : ℚ
  m13 : ℚ
  m20 : ℚ
  m21 : ℚ
  m22 : ℚ
  m23 : ℚ
  m30 : ℚ
  m31 : ℚ
  m32 : ℚ
  m33 : ℚ
deriving DecidableEq, Repr

/-- Matrix-vector product. -/
def mulVec4 (m : Mat4) (v : V4) : V4 :=
  { x := m.m00 * v.x + m.m01 * v.y + m.m02 * v.z + m.m03 * v.w,
    y := m.m10 * v.x + m.m11 * v.y + m.m12 * v.z + m.m13 * v.w,
    z := m.m20 * v.x + m.m21 * v.y + m.m22 * v.z + m.m23 * v.w,
    w := m.m30 * v.x + m.m31 * v.y + m.m32 * v.z + m.m33 * v.w }

/-- Matrix-matrix product. -/
def matMul4 (m n : Mat4) : Mat4 :=
  { m00 := m.m00 * n.m00 + m.m01 * n.m10 + m.m02 * n.m20 + m.m03 * n.m30,
    m01 := m.m00 * n.m01 + m.m01 * n.m11 + m.m02 * n.m21 + m.m03 * n.m31,
    m02 := m.m00 * n.m02 + m.m01 * n.m12 + m.m02 * n.m22 + m.m03 * n.m32,
    m03 := m.m00 * n.m03 + m.m01 * n.m13 + m.m02 * n.m23 + m.m03 * n.m33,
    m10 := m.m10 * n.m00 + m.m11 * n.m10 + m.m12 * n.m20 + m.m13 * n.m30,
    m11 := m.m10 * n.m01 + m.m11 * n.m11 + m.m12 * n.m21 + m.m13 * n.m31,
    m12 := m.m10 * n.m02 + m.m11 * n.m12 + m.m12 * n.m22 + m.m13 * n.m32,
    m13 := m.m10 * n.m03 + m.m11 * n.m13 + m.m12 * n.m23 + m.m13 * n.m33,
    m20 := m.m20 * n.m00 + m.m21 * n.m10 + m.m22 * n.m20 + m.m23 * n.m30,
    m21 := m.m20 * n.m01 + m.m21 * n.m11 + m.m22 * n.m21 + m.m23 * n.m31,
    m22 := m.m20 * n.m02 + m.m21 * n.m12 + m.m22 * n.m22 + m.m23 * n.m32,
    m23 := m.m20 * n.m03 + m.m21 * n.m13 + m.m22 * n.m23 + m.m23 * n.m33,
    m30 := m.m30 * n.m00 + m.m31 * n.m10 + m.m32 * n.m20 + m.m33 * n.m30,
    m31 := m.m30 * n.m01 + m.m31 * n.m11 + m.m32 * n.m21 + m.m33 * n.m31,
    m32 := m.m30 * n.m02 + m.m31 * n.m12 + m.m32 * n.m22 + m.m33 * n.m32,
    m33 := m.m30 * n.m03 + m.m31 * n.m13 + m.m32 * n.m23 + m.m33 * n.m33 }

/-- The identity matrix (Mat4::identity()), the value of the view matrix in
the Uniforms at program start: the orbit points of the first frame are
projected with it, before the body loop of that frame overwrites the view
matrix. -/
def idMat4 : Mat4 :=
  { m00 := 1, m01 := 0, m02 := 0, m03 := 0,
    m10 := 0, m11 := 1, m12 := 0, m13 := 0,
    m20 := 0, m21 := 0, m22 := 1, m23 := 0,
    m30 := 0, m31 := 0, m32 := 0, m33 := 1 }

/-- create_viewport_matrix (main.rs, lines 185-192). -/
def create_viewport_matrix (width height : ℚ) : Mat4 :=
  { m00 := width / 2, m01 := 0, m02 := 0, m03 := width / 2,
    m10 := 0, m11 := -height / 2, m12 := 0, m13 := height / 2,
    m20 := 0, m21 := 0, m22 := 1, m23 := 0,
    m30 := 0, m31 := 0, m32 := 0, m33 := 1 }

/-- Modelled from the library boundary: the right-handed perspective matrix
produced by the external nalgebra_glm perspective call of
create_perspective_matrix (main.rs, lines 177-183), parametrised by
t = tan(fovy / 2) (irrational, hence a parameter): only its last row
[0, 0, -1, 0] matters here, and it holds for every parameter value. -/
def glmPerspective (t aspect near far : ℚ) : Mat4 :=
  { m00 := 1 / (aspect * t), m01 := 0, m02 := 0, m03 := 0,
    m10 := 0, m11 := 1 / t, m12 := 0, m13 := 0,
    m20 := 0, m21 := 0, m22 := -(far + near) / (far - near),
    m23 := -(2 * far * near) / (far - near),
    m30 := 0, m31 := 0, m32 := -1, m33 := 0 }

/-- f32 division, modelled as fallible: dividing by (plus or minus) zero
yields a non-finite value, modelled as none. -/
def fdiv (a b : ℚ) : Option ℚ := if b = 0 then none else some (a / b)

/-- world_to_screen (main.rs, lines 306-318): transform the point by
projection * view, divide the three components by the resulting w with no
guard whatsoever, then apply the viewport matrix.  A zero w propagates the
non-finite division result (none) to the output. -/
def world_to_screen (projection view viewport : Mat4) (point : V3) :
    Option V3 :=
  let pos : V4 := { x := vx point, y := vy point, z := vz point, w := 1 }
  let transformed := mulVec4 (matMul4 projection view) pos
  let w := transformed.w
  match fdiv transformed.x w, fdiv transformed.y w, fdiv transformed.z w with
  | some nx, some ny, some nz =>
    let ndc : V4 := { x := nx, y := ny, z := nz, w := 1 }
    let screen := mulVec4 viewport ndc
    some (screen.x, screen.y, screen.z)
  | _, _, _ => none

/-! ## solar_system.rs and the per-frame shader selector trace (main.rs) -/

/-- The shader ids of the bodies built by SolarSystem::new
(solar_system.rs, lines 29-85): the sun with shader 7 followed by the five
planets with shaders 3, 1, 2, 5, 4. -/
def solarSystemShaders : List ℕ := [7, 3, 1, 2, 5, 4]

/-- The window and framebuffer width configured in main (main.rs, line 327). -/
def window_width : ℕ := 680

/-- The window and framebuffer height configured in main
(main.rs, line 328). -/
def window_height : ℕ := 800

/-- Trace of the uniforms.current_shader assignments in one iteration of the
main loop (main.rs, lines 433-467). -/
structure FrameTrace where
  shaderAfterBodies : ℕ
  shaderAtBloomCheck : ℕ
  fullResBloomApplied : Bool
deriving DecidableEq, Repr

/-- One frame of the main loop, as far as the current_shader uniform and the
full-resolution bloom are concerned (main.rs, lines 433-467): the body loop
assigns each body's shader id in turn (and 9 for Saturn's ring after body
index 5), the spaceship draw then assigns 8, and the full-resolution bloom
(gaussian_blur with kernel 20 / sigma 2.5 followed by apply_bloom) runs only
if current_shader equals 7 at that point. -/
def frameRun (bodyIds : List ℕ) (initShader : ℕ) : FrameTrace :=
  let afterBodies :=
    bodyIds.enum.foldl (fun _cur p => if p.1 = 5 then 9 else p.2) initShader
  let afterSpaceship := 8
  { shaderAfterBodies := afterBodies,
    shaderAtBloomCheck := afterSpaceship,
    fullResBloomApplied := afterSpaceship == 7 }

/-! ## Basic lemmas about the embedding -/

lemma ratFloor_eq (q : ℚ) : ratFloor q = ⌊q⌋ := rfl

lemma ratCeil_eq (q : ℚ) : ratCeil q = ⌈q⌉ := rfl

/-- The three edge functions of any point against a triangle sum to the
triangle's signed area. -/
lemma edge_sum (a b c p : V3) :
    edge_function b c p + edge_function c a p + edge_function a b p
      = edge_function a b c := by
  simp only [edge_function, vx, vy]
  ring

/-- The edge functions reproduce the x coordinate of the test point. -/
lemma edge_coord_x (a b c p : V3) :
    edge_function b c p * vx a + edge_function c a p * vx b
      + edge_function a b p * vx c = edge_function a b c * vx p := by
  simp only [edge_function, vx, vy]
  ring

/-- The edge functions reproduce the y coordinate of the test point. -/
lemma edge_coord_y (a b c p : V3) :
    edge_function b c p * vy a + edge_function c a p * vy b
      + edge_function a b p * vy c = edge_function a b c * vy p := by
  simp only [edge_function, vx, vy]
  ring

lemma mem_intRange {lo hi x : ℤ} : x ∈ intRange lo hi ↔ lo ≤ x ∧ x ≤ hi := by
  unfold intRange
  rw [List.mem_map]
  constructor
  · rintro ⟨i, hlt, rfl⟩
    rw [List.mem_range] at hlt
    show lo ≤ lo + (i : ℤ) ∧ lo + (i : ℤ) ≤ hi
    omega
  · rintro ⟨h1, h2⟩
    refine ⟨(x - lo).toNat, ?_, ?_⟩
    · rw [List.mem_range]
      omega
    · show lo + ((x - lo).toNat : ℤ) = x
      omega

lemma intRange_nodup (lo hi : ℤ) : (intRange lo hi).Nodup := by
  unfold intRange
  refine List.Nodup.map ?_ (List.nodup_range _)
  intro i j hij
  have h2 : lo + (i : ℤ) = lo + (j : ℤ) := hij
  exact Nat.cast_injective (add_left_cancel h2)

lemma pixelFrag_eq_some {v1 v2 v3 : Vtx} {x y : ℤ} {f : Frag}
    (h : pixelFrag v1 v2 v3 x y = some f) : f = fragAt v1 v2 v3 x y := by
  unfold pixelFrag at h
  split at h
  · exact (Option.some_inj.1 h).symm
  · exact absurd h (by simp)

lemma pixelFrag_coords {v1 v2 v3 : Vtx} {x y : ℤ} {f : Frag}
    (h : pixelFrag v1 v2 v3 x y = some f) : f.x = x ∧ f.y = y := by
  rw [pixelFrag_eq_some h]
  exact ⟨rfl, rfl⟩

lemma pixelFrag_isSome {v1 v2 v3 : Vtx} {x y : ℤ} :
    (pixelFrag v1 v2 v3 x y).isSome = true ↔ insideTri v1 v2 v3 x y := by
  unfold pixelFrag
  split
  · simp [*]
  · simp [*]

/-! ## Claim C1 -/

/-- Claim C1: in every rendered frame in which the emissive star (shader 7)
is among the bodies drawn, the full-resolution bloom is applied before the
buffer is presented.  REFUTED by the code: the spaceship draw sets
current_shader to 8 immediately before the bloom check, so the
full-resolution bloom never runs even though shader 7 is among the drawn
bodies of the solar system in every frame. -/
theorem full_res_bloom_never_applied :
    7 ∈ solarSystemShaders ∧
    ∀ (bodyIds : List ℕ) (initShader : ℕ),
      (frameRun bodyIds initShader).fullResBloomApplied = false := by
  refine ⟨by simp [solarSystemShaders], ?_⟩
  intro bodyIds initShader
  rfl

/-! ## Claim C6 -/

/-- Claim C6: for every triangle whose edge-function signed area has
absolute value below the epsilon threshold 0.1, the rasterizer produces
zero fragments, silently. -/
theorem degenerate_triangle_zero_fragments (v1 v2 v3 : Vtx)
    (h : |edge_function v1.transformed_position v2.transformed_position
            v3.transformed_position| < 1/10) :
    triangle v1 v2 v3 = [] := by
  simp only [triangle]
  by_cases h1 : culled v1.transformed_position v2.transformed_position
      v3.transformed_position = true
  · rw [if_pos h1]
  · rw [if_neg h1, if_pos h]

/-- Witness for C6: a concrete collinear triangle. -/
theorem degenerate_triangle_zero_fragments_witness :
    |edge_function (1, 1, 0) (2, 2, 0) (3, 3, 0)| < 1/10 ∧
    triangle
      { position := (0,0,0), tex_coords := (0,0), color := 1,
        transformed_position := (1, 1, 0), transformed_normal := (0,0,1) }
      { position := (0,0,0), tex_coords := (0,0), color := 1,
        transformed_position := (2, 2, 0), transformed_normal := (0,0,1) }
      { position := (0,0,0), tex_coords := (0,0), color := 1,
        transformed_position := (3, 3, 0), transformed_normal := (0,0,1) }
      = [] :=
  ⟨by decide, degenerate_triangle_zero_fragments _ _ _ (by decide)⟩

/-! ## Claim C7 -/

/-- Claim C7: for every triangle with nonzero signed area and every point
strictly inside it (all three normalised edge functions positive), the three
barycentric weights are each in [0, 1] and sum exactly to 1. -/
theorem bary_weights_unit_sum (a b c p : V3)
    (harea : edge_function a b c ≠ 0)
    (h1 : 0 < (baryWeights a b c p).1)
    (h2 : 0 < (baryWeights a b c p).2.1)
    (h3 : 0 < (baryWeights a b c p).2.2) :
    ((0:ℚ) ≤ (baryWeights a b c p).1 ∧ (baryWeights a b c p).1 ≤ 1) ∧
    ((0:ℚ) ≤ (baryWeights a b c p).2.1 ∧ (baryWeights a b c p).2.1 ≤ 1) ∧
    ((0:ℚ) ≤ (baryWeights a b c p).2.2 ∧ (baryWeights a b c p).2.2 ≤ 1) ∧
    (baryWeights a b c p).1 + (baryWeights a b c p).2.1
      + (baryWeights a b c p).2.2 = 1 := by
  have hsum : (baryWeights a b c p).1 + (baryWeights a b c p).2.1
      + (baryWeights a b c p).2.2 = 1 := by
    simp only [baryWeights]
    rw [div_add_div_same, div_add_div_same, edge_sum]
    exact div_self harea
  exact ⟨⟨le_of_lt h1, by linarith⟩, ⟨le_of_lt h2, by linarith⟩,
         ⟨le_of_lt h3, by linarith⟩, hsum⟩

/-- Witness for C7: the triangle (0,0), (4,0), (0,4) and the interior point
(1, 1), whose weights are 1/2, 1/4, 1/4. -/
theorem bary_weights_unit_sum_witness :
    edge_function (0,0,0) (4,0,0) (0,4,0) ≠ 0 ∧
    0 < (baryWeights (0,0,0) (4,0,0) (0,4,0) (1,1,0)).1 ∧
    0 < (baryWeights (0,0,0) (4,0,0) (0,4,0) (1,1,0)).2.1 ∧
    0 < (baryWeights (0,0,0) (4,0,0) (0,4,0) (1,1,0)).2.2 ∧
    (((0:ℚ) ≤ (baryWeights (0,0,0) (4,0,0) (0,4,0) (1,1,0)).1 ∧
        (baryWeights (0,0,0) (4,0,0) (0,4,0) (1,1,0)).1 ≤ 1) ∧
     ((0:ℚ) ≤ (baryWeights (0,0,0) (4,0,0) (0,4,0) (1,1,0)).2.1 ∧
        (baryWeights (0,0,0) (4,0,0) (0,4,0) (1,1,0)).2.1 ≤ 1) ∧
     ((0:ℚ) ≤ (baryWeights (0,0,0) (4,0,0) (0,4,0) (1,1,0)).2.2 ∧
        (baryWeights (0,0,0) (4,0,0) (0,4,0) (1,1,0)).2.2 ≤ 1) ∧
     (baryWeights (0,0,0) (4,0,0) (0,4,0) (1,1,0)).1 +
       (baryWeights (0,0,0) (4,0,0) (0,4,0) (1,1,0)).2.1 +
       (baryWeights (0,0,0) (4,0,0) (0,4,0) (1,1,0)).2.2 = 1) :=
  ⟨by decide, by decide, by decide, by decide,
   bary_weights_unit_sum _ _ _ _ (by decide) (by decide) (by decide) (by decide)⟩

/-! ## Concrete vertices used by counterexamples and witnesses -/

/-- A vertex with the given transformed position and default carried
attributes, used for concrete rasterizer inputs. -/
def testVert (tp : V3) : Vtx :=
  { position := (0, 0, 0), tex_coords := (0, 0), color := 1,
    transformed_position := tp, transformed_normal := (0, 0, 1) }

/-! ## Claim C3 -/

/-- Claim C3 counterexample: a triangle whose three vertices all have x
beyond the configured viewport width 680 (x in [690, 700], i.e. outside the
680 x 800 viewport on the x axis) for which the rasterizer nevertheless
emits fragments, because the cull test compares x against the hardcoded 800
rather than the viewport width. -/
theorem cull_misses_viewport_right_band :
    ((window_width : ℚ) < vx (testVert (690, 10, 0)).transformed_position ∧
     (window_width : ℚ) < vx (testVert (700, 10, 0)).transformed_position ∧
     (window_width : ℚ) < vx (testVert (690, 20, 0)).transformed_position) ∧
    triangle (testVert (690, 10, 0)) (testVert (700, 10, 0))
      (testVert (690, 20, 0)) ≠ [] :=
  ⟨by decide, by decide⟩

/-- Claim C3 as amended: for every triangle whose three transformed vertices
all lie outside the hardcoded cull rectangle on one single axis — all x
below 0, all x above 800, all y below 0, or all y above 600 (the constants
of the source, not the configured 680 x 800 viewport) — the rasterizer
returns zero fragments. -/
theorem cull_rect_outside_zero_fragments (v1 v2 v3 : Vtx)
    (h : (vx v1.transformed_position < 0 ∧ vx v2.transformed_position < 0 ∧
            vx v3.transformed_position < 0) ∨
         (vx v1.transformed_position > 800 ∧ vx v2.transformed_position > 800 ∧
            vx v3.transformed_position > 800) ∨
         (vy v1.transformed_position < 0 ∧ vy v2.transformed_position < 0 ∧
            vy v3.transformed_position < 0) ∨
         (vy v1.transformed_position > 600 ∧ vy v2.transformed_position > 600 ∧
            vy v3.transformed_position > 600)) :
    triangle v1 v2 v3 = [] := by
  have hc : culled v1.transformed_position v2.transformed_position
      v3.transformed_position = true := by
    simp only [culled, Bool.or_eq_true, Bool.and_eq_true, decide_eq_true_eq]
    rcases h with ⟨h1, h2, h3⟩ | ⟨h1, h2, h3⟩ | ⟨h1, h2, h3⟩ | ⟨h1, h2, h3⟩
    · exact Or.inl (Or.inl (Or.inl ⟨⟨h1, h2⟩, h3⟩))
    · exact Or.inl (Or.inl (Or.inr ⟨⟨h1, h2⟩, h3⟩))
    · exact Or.inl (Or.inr ⟨⟨h1, h2⟩, h3⟩)
    · exact Or.inr ⟨⟨h1, h2⟩, h3⟩
  simp [triangle, hc]

/-- Witness for the amended C3: a triangle entirely at x below 0. -/
theorem cull_rect_outside_zero_fragments_witness :
    ((vx (testVert (-10, 5, 0)).transformed_position < 0 ∧
      vx (testVert (-20, 5, 0)).transformed_position < 0 ∧
      vx (testVert (-10, 15, 0)).transformed_position < 0) ∨
     (vx (testVert (-10, 5, 0)).transformed_position > 800 ∧
      vx (testVert (-20, 5, 0)).transformed_position > 800 ∧
      vx (testVert (-10, 15, 0)).transformed_position > 800) ∨
     (vy (testVert (-10, 5, 0)).transformed_position < 0 ∧
      vy (testVert (-20, 5, 0)).transformed_position < 0 ∧
      vy (testVert (-10, 15, 0)).transformed_position < 0) ∨
     (vy (testVert (-10, 5, 0)).transformed_position > 600 ∧
      vy (testVert (-20, 5, 0)).transformed_position > 600 ∧
      vy (testVert (-10, 15, 0)).transformed_position > 600)) ∧
    triangle (testVert (-10, 5, 0)) (testVert (-20, 5, 0))
      (testVert (-10, 15, 0)) = [] :=
  ⟨by decide,
   cull_rect_outside_zero_fragments _ _ _ (by decide)⟩

/-! ## Claim C4 -/

/-- Claim C4: out-of-bounds fragments are silently dropped with no buffer
cell modified and no write landing at any other pixel.  REFUTED for
negative coordinates: the rasterizer emits a fragment at (-2, 5) for a
triangle straddling the left viewport edge, the Rust saturating
f32-to-usize cast sends x = -2 to 0, the bounds check then passes, and the
write lands at pixel (0, 5) of the cleared framebuffer, visibly changing
its color. -/
theorem oob_fragment_write_lands_at_border :
    ((triangle (testVert (-3, 4, 0)) (testVert (1, 4, 0))
        (testVert (-3, 8, 0))).any fun f => decide (f.x = -2 ∧ f.y = 5)) = true ∧
    (FB.cleared window_width window_height 0).color 0 5 = 0 ∧
    (renderFragmentWrite (FB.cleared window_width window_height 0)
        (-2) 5 0 3 16711680).color 0 5 = 16711680 :=
  ⟨by decide, rfl, by decide⟩

/-! ## Claim C2 -/

/-- Claim C2: the kernel built by create_gaussian_kernel is maximal at the
central offset and non-increasing in the distance from the center.  REFUTED:
the code negates exp_numerator a second time, computing
exp(+(x - mean)^2 / (2 sigma^2)), so already for size 3 and sigma 1 the
weight at offset 0 strictly exceeds the weight at the central offset 1. -/
theorem gaussian_kernel_not_max_at_center :
    kernelWeight 3 1 1 < kernelWeight 3 1 0 := by
  unfold kernelWeight
  have h0 : kernelExpArg 3 1 1 = 0 := by decide
  have h1 : kernelExpArg 3 1 0 = 1/2 := by decide
  rw [h0, h1]
  have hsq : (0:ℝ) < Real.sqrt (2 * Real.pi * ((1:ℚ):ℝ) * ((1:ℚ):ℝ)) := by
    apply Real.sqrt_pos.2
    push_cast
    nlinarith [Real.pi_pos]
  have hc : (0:ℝ) < 1 / Real.sqrt (2 * Real.pi * ((1:ℚ):ℝ) * ((1:ℚ):ℝ)) :=
    div_pos one_pos hsq
  have hexp : Real.exp (((0:ℚ):ℝ)) < Real.exp ((((1:ℚ)/2 : ℚ):ℝ)) := by
    apply Real.exp_lt_exp.2
    push_cast
    norm_num
  have key := mul_pos hc (sub_pos.2 hexp)
  nlinarith [key]

/-! ## Claim C9 -/

/-- Claim C9: every perspective division by w in the core is guarded against
zero w.  REFUTED: world_to_screen divides by the w component with no guard;
in the first rendered frame the view matrix is still the identity and the
first orbit point of Mercury, (4, 0, 0), has camera-space z equal to 0, so
w = 0 for every parameterisation of the glm perspective matrix and the
division produces a non-finite result (modelled as none). -/
theorem world_to_screen_division_unguarded (t aspect near far : ℚ) :
    world_to_screen (glmPerspective t aspect near far) idMat4
      (create_viewport_matrix (window_width : ℚ) (window_height : ℚ))
      (4, 0, 0) = none := by
  simp only [world_to_screen, mulVec4, matMul4, glmPerspective, idMat4, fdiv,
    vx, vy, vz]
  norm_num

/-! ## Claim C8 -/

lemma blendChannel_mono (ch : ℕ) {e1 e2 : ℕ} (h : e1 ≤ e2) :
    blendChannel ch e1 ≤ blendChannel ch e2 := by
  unfold blendChannel
  apply Int.toNat_le_toNat
  show ⌊min (min ((ch : ℚ) + (e1 : ℚ) * (8/10)) (255 * (12/10))) 255⌋
    ≤ ⌊min (min ((ch : ℚ) + (e2 : ℚ) * (8/10)) (255 * (12/10))) 255⌋
  apply Int.floor_mono
  have hc : ((e1 : ℚ)) ≤ (e2 : ℚ) := by exact_mod_cast h
  have hadd : ((ch : ℚ) + (e1 : ℚ) * (8/10)) ≤ ((ch : ℚ) + (e2 : ℚ) * (8/10)) := by
    nlinarith
  exact min_le_min (min_le_min hadd le_rfl) le_rfl

lemma blendChannel_le_255 (ch e : ℕ) : blendChannel ch e ≤ 255 := by
  unfold blendChannel
  have h2 : (Rat.floor (min (min ((ch : ℚ) + (e : ℚ) * (8/10))
      (255 * (12/10))) 255) : ℤ) ≤ 255 := by
    show ⌊min (min ((ch : ℚ) + (e : ℚ) * (8/10)) (255 * (12/10))) 255⌋ ≤ (255 : ℤ)
    calc ⌊min (min ((ch : ℚ) + (e : ℚ) * (8/10)) (255 * (12/10))) 255⌋
        ≤ ⌊(255 : ℚ)⌋ := Int.floor_mono (min_le_right _ _)
      _ = 255 := by norm_num
  calc (Rat.floor (min (min ((ch : ℚ) + (e : ℚ) * (8/10))
          (255 * (12/10))) 255)).toNat
      ≤ (255 : ℤ).toNat := Int.toNat_le_toNat h2
    _ = 255 := rfl

/-- Claim C8: blend_bloom is monotonic and bounded: for a fixed base color,
a larger bloom intensity never decreases any output channel; each output
channel equals min(channel + 0.8 * emission, min(255, 255 * 1.2)) (truncated
to an integer); no output channel exceeds 255; and the result repacks the
three blended channels. -/
theorem blend_bloom_monotone_bounded (base ch e e1 e2 : ℕ) (h : e1 ≤ e2) :
    blendChannel ch e1 ≤ blendChannel ch e2 ∧
    blendChannel ch e
      = (Rat.floor (min ((ch : ℚ) + (8/10) * (e : ℚ))
          (min 255 (255 * (12/10))))).toNat ∧
    blendChannel ch e ≤ 255 ∧
    blend_bloom base e
      = (blendChannel (rgbChannel base 16) e) <<< 16 |||
        (blendChannel (rgbChannel base 8) e) <<< 8 |||
        blendChannel (rgbChannel base 0) e := by
  refine ⟨blendChannel_mono ch h, ?_, blendChannel_le_255 ch e, rfl⟩
  unfold blendChannel
  have harg : min (min ((ch : ℚ) + (e : ℚ) * (8/10)) (255 * (12/10))) 255
      = min ((ch : ℚ) + (8/10) * (e : ℚ)) (min 255 (255 * (12/10))) := by
    rw [min_assoc, min_comm (255 * (12/10) : ℚ) 255, mul_comm ((e : ℚ)) ((8:ℚ)/10)]
  rw [harg]

/-- Witness for C8 at base color 0x112233, channel 0x11 = 17, emission
levels 3 and 5. -/
theorem blend_bloom_monotone_bounded_witness :
    3 ≤ 5 ∧
    (blendChannel 17 3 ≤ blendChannel 17 5 ∧
     blendChannel 17 7
       = (Rat.floor (min ((17 : ℚ) + (8/10) * (7 : ℚ))
           (min 255 (255 * (12/10))))).toNat ∧
     blendChannel 17 7 ≤ 255 ∧
     blend_bloom 1122867 7
       = (blendChannel (rgbChannel 1122867 16) 7) <<< 16 |||
         (blendChannel (rgbChannel 1122867 8) 7) <<< 8 |||
         blendChannel (rgbChannel 1122867 0) 7) :=
  ⟨by decide, blend_bloom_monotone_bounded 1122867 17 7 3 5 (by decide)⟩

/-! ## Claim C10 -/

lemma fragIntensity_bounds (n : V3) :
    0 ≤ fragIntensity n ∧ fragIntensity n ≤ 1 := by
  simp only [fragIntensity]
  by_cases h : Real.sqrt (((vx n : ℝ)) ^ 2 + ((vy n : ℝ)) ^ 2
      + ((vz n : ℝ)) ^ 2) = 0
  · rw [if_pos h]
    norm_num
  · rw [if_neg h]
    have hnn := Real.sqrt_nonneg (((vx n : ℝ)) ^ 2 + ((vy n : ℝ)) ^ 2
      + ((vz n : ℝ)) ^ 2)
    have hpos : 0 < Real.sqrt (((vx n : ℝ)) ^ 2 + ((vy n : ℝ)) ^ 2
        + ((vz n : ℝ)) ^ 2) := lt_of_le_of_ne hnn (Ne.symm h)
    refine ⟨le_max_right _ _, max_le ?_ zero_le_one⟩
    rw [div_le_one hpos]
    calc (vz n : ℝ) ≤ |(vz n : ℝ)| := le_abs_self _
      _ = Real.sqrt ((vz n : ℝ) ^ 2) := (Real.sqrt_sq_eq_abs _).symm
      _ ≤ Real.sqrt (((vx n : ℝ)) ^ 2 + ((vy n : ℝ)) ^ 2 + ((vz n : ℝ)) ^ 2) := by
          apply Real.sqrt_le_sqrt
          nlinarith [sq_nonneg ((vx n : ℝ)), sq_nonneg ((vy n : ℝ))]

/-- Claim C10: every fragment emitted by the rasterizer carries a lighting
intensity in [0, 1]: the interpolated normal is renormalised, dotted with
the fixed light direction (0, 0, 1), clamped below at 0, and the zero-normal
NaN case collapses to 0 under the Rust f32 max semantics. -/
theorem fragment_intensity_unit_interval (v1 v2 v3 : Vtx) (f : Frag)
    (_hf : f ∈ triangle v1 v2 v3) :
    0 ≤ fragIntensity f.normal ∧ fragIntensity f.normal ≤ 1 :=
  fragIntensity_bounds f.normal

set_option maxHeartbeats 1000000 in
/-- Witness for C10: the first fragment, at pixel (0, 0), of a concrete
triangle with unit normals. -/
theorem fragment_intensity_unit_interval_witness :
    ({ x := 0, y := 0, color := 1, depth := 0, normal := (0, 0, 1),
       world_position := (0, 0, 0), uv := (0, 0) } : Frag)
      ∈ triangle (testVert (0, 0, 0)) (testVert (2, 0, 0))
          (testVert (0, 2, 0)) ∧
    (0 ≤ fragIntensity (0, 0, 1) ∧ fragIntensity (0, 0, 1) ≤ 1) :=
  ⟨by decide,
   fragment_intensity_unit_interval (testVert (0, 0, 0)) (testVert (2, 0, 0))
     (testVert (0, 2, 0))
     { x := 0, y := 0, color := 1, depth := 0, normal := (0, 0, 1),
       world_position := (0, 0, 0), uv := (0, 0) } (by decide)⟩

/-! ## Claim C5: exact coverage of the bounding-box scan -/

lemma countP_flatMap (l : List ℤ) (f : ℤ → List Frag) (p : Frag → Bool) :
    (l.flatMap f).countP p = (l.map fun a => (f a).countP p).sum := by
  induction l with
  | nil => rfl
  | cons a t ih =>
      rw [List.flatMap_cons, List.countP_append, List.map_cons, List.sum_cons,
        ih]

lemma sum_map_single (l : List ℤ) (F : ℤ → ℕ) (y0 : ℤ) (hnd : l.Nodup)
    (h0 : ∀ z ∈ l, z ≠ y0 → F z = 0) :
    (l.map F).sum = if y0 ∈ l then F y0 else 0 := by
  induction l with
  | nil => simp
  | cons a t ih =>
      rcases List.nodup_cons.1 hnd with ⟨ha, ht⟩
      rw [List.map_cons, List.sum_cons]
      by_cases hay : a = y0
      · subst hay
        have hz : (t.map F).sum = 0 := by
          apply List.sum_eq_zero
          intro v hv
          rcases List.mem_map.1 hv with ⟨z, hz2, rfl⟩
          exact h0 z (List.mem_cons_of_mem _ hz2) (fun he => ha (he ▸ hz2))
        rw [hz, if_pos (List.mem_cons_self _ _)]
        exact Nat.add_zero _
      · rw [h0 a (List.mem_cons_self _ _) hay,
          ih ht (fun z hz2 hne => h0 z (List.mem_cons_of_mem _ hz2) hne)]
        by_cases hyt : y0 ∈ t
        · rw [if_pos hyt, if_pos (List.mem_cons_of_mem _ hyt), Nat.zero_add]
        · rw [if_neg hyt, if_neg ?_]
          intro hmem
          rcases List.mem_cons.1 hmem with he | ht2
          · exact hay he.symm
          · exact hyt ht2

lemma countP_filterMap_single (l : List ℤ) (g : ℤ → Option Frag)
    (p : Frag → Bool) (x0 : ℤ) (hnd : l.Nodup)
    (hkey : ∀ z f, g z = some f → (p f = true ↔ z = x0)) :
    (l.filterMap g).countP p
      = if x0 ∈ l ∧ (g x0).isSome = true then 1 else 0 := by
  induction l with
  | nil => simp
  | cons a t ih =>
      rcases List.nodup_cons.1 hnd with ⟨ha, ht⟩
      have iht := ih ht
      rw [List.filterMap_cons]
      cases hga : g a with
      | none =>
          rw [iht]
          by_cases hax : a = x0
          · subst hax
            rw [if_neg ?c1, if_neg ?c2]
            case c1 =>
              rintro ⟨-, hs⟩
              rw [hga] at hs
              exact absurd hs (by simp)
            case c2 =>
              rintro ⟨-, hs⟩
              rw [hga] at hs
              exact absurd hs (by simp)
          · refine if_congr ?_ rfl rfl
            constructor
            · rintro ⟨hm, hs⟩
              exact ⟨List.mem_cons_of_mem _ hm, hs⟩
            · rintro ⟨hm, hs⟩
              rcases List.mem_cons.1 hm with he | hm2
              · exact absurd he.symm hax
              · exact ⟨hm2, hs⟩
      | some f =>
          rw [List.countP_cons, iht]
          by_cases hax : a = x0
          · subst hax
            have hp : p f = true := (hkey _ _ hga).2 rfl
            rw [hp, if_neg (fun hc => ha hc.1)]
            have hc2 : a ∈ a :: t ∧ (g a).isSome = true := by
              refine ⟨List.mem_cons_self _ _, ?_⟩
              rw [hga]
              rfl
            rw [if_pos hc2]
            rfl
          · have hp : p f = false := by
              cases hpf : p f
              · rfl
              · exact absurd ((hkey _ _ hga).1 hpf) hax
            rw [hp]
            have hone : (if (false = true) then 1 else 0) = 0 := by simp
            rw [hone, Nat.add_zero]
            refine if_congr ?_ rfl rfl
            constructor
            · rintro ⟨hm, hs⟩
              exact ⟨List.mem_cons_of_mem _ hm, hs⟩
            · rintro ⟨hm, hs⟩
              rcases List.mem_cons.1 hm with he | hm2
              · exact absurd he.symm hax
              · exact ⟨hm2, hs⟩

/-- A point reproduced by three signed coefficients of matching sign lies
between the minimum and maximum of the reproduced coordinates. -/
lemma convex_comb_bounds {A e1 e2 e3 xa xb xc px m M : ℚ}
    (hsum : e1 + e2 + e3 = A)
    (hco : A * px = e1 * xa + e2 * xb + e3 * xc)
    (hma : m ≤ xa) (hmb : m ≤ xb) (hmc : m ≤ xc)
    (hMa : xa ≤ M) (hMb : xb ≤ M) (hMc : xc ≤ M)
    (hsigns : (0 < A ∧ 0 ≤ e1 ∧ 0 ≤ e2 ∧ 0 ≤ e3) ∨
              (A < 0 ∧ e1 ≤ 0 ∧ e2 ≤ 0 ∧ e3 ≤ 0)) :
    m ≤ px ∧ px ≤ M := by
  have hAm : A * m = e1 * m + e2 * m + e3 * m := by
    rw [← hsum]
    ring
  have hAM : A * M = e1 * M + e2 * M + e3 * M := by
    rw [← hsum]
    ring
  rcases hsigns with ⟨hA, h1, h2, h3⟩ | ⟨hA, h1, h2, h3⟩
  · constructor
    · have hstep : A * m ≤ A * px := by
        have g1 := mul_le_mul_of_nonneg_left hma h1
        have g2 := mul_le_mul_of_nonneg_left hmb h2
        have g3 := mul_le_mul_of_nonneg_left hmc h3
        linarith [hAm, hco]
      exact le_of_mul_le_mul_left hstep hA
    · have hstep : A * px ≤ A * M := by
        have g1 := mul_le_mul_of_nonneg_left hMa h1
        have g2 := mul_le_mul_of_nonneg_left hMb h2
        have g3 := mul_le_mul_of_nonneg_left hMc h3
        linarith [hAM, hco]
      exact le_of_mul_le_mul_left hstep hA
  · constructor
    · have hstep : A * px ≤ A * m := by
        have g1 := mul_le_mul_of_nonpos_left hma h1
        have g2 := mul_le_mul_of_nonpos_left hmb h2
        have g3 := mul_le_mul_of_nonpos_left hmc h3
        linarith [hAm, hco]
      exact le_of_mul_le_mul_left
        (by linarith [hstep] : (-A) * m ≤ (-A) * px) (by linarith : (0:ℚ) < -A)
    · have hstep : A * M ≤ A * px := by
        have g1 := mul_le_mul_of_nonpos_left hMa h1
        have g2 := mul_le_mul_of_nonpos_left hMb h2
        have g3 := mul_le_mul_of_nonpos_left hMc h3
        linarith [hAM, hco]
      exact le_of_mul_le_mul_left
        (by linarith [hstep] : (-A) * px ≤ (-A) * M) (by linarith : (0:ℚ) < -A)

/-- Every pixel whose sample center passes the inclusion test lies inside
the integer bounding box of the triangle. -/
lemma inside_bbox {v1 v2 v3 : Vtx} {x y : ℤ}
    (harea0 : edge_function v1.transformed_position v2.transformed_position
        v3.transformed_position ≠ 0)
    (hin : insideTri v1 v2 v3 x y) :
    ((calculate_bounding_box v1.transformed_position v2.transformed_position
        v3.transformed_position).1 ≤ x ∧
      x ≤ (calculate_bounding_box v1.transformed_position
        v2.transformed_position v3.transformed_position).2.2.1) ∧
    ((calculate_bounding_box v1.transformed_position v2.transformed_position
        v3.transformed_position).2.1 ≤ y ∧
      y ≤ (calculate_bounding_box v1.transformed_position
        v2.transformed_position v3.transformed_position).2.2.2) := by
  set a := v1.transformed_position with ha
  set b := v2.transformed_position with hb
  set c := v3.transformed_position with hc
  simp only [insideTri, pixelWeights, baryWeights, ← ha, ← hb, ← hc] at hin
  obtain ⟨h1, h2, h3⟩ := hin
  set p := sampleCenter x y with hp
  have hsigns : (0 < edge_function a b c ∧ 0 ≤ edge_function b c p ∧
      0 ≤ edge_function c a p ∧ 0 ≤ edge_function a b p) ∨
      (edge_function a b c < 0 ∧ edge_function b c p ≤ 0 ∧
        edge_function c a p ≤ 0 ∧ edge_function a b p ≤ 0) := by
    rcases lt_or_gt_of_ne harea0 with hA | hA
    · right
      refine ⟨hA, ?_, ?_, ?_⟩
      · rcases div_nonneg_iff.1 h1 with ⟨-, hA2⟩ | ⟨hE, -⟩
        · exact absurd (lt_of_lt_of_le hA hA2) (lt_irrefl _)
        · exact hE
      · rcases div_nonneg_iff.1 h2 with ⟨-, hA2⟩ | ⟨hE, -⟩
        · exact absurd (lt_of_lt_of_le hA hA2) (lt_irrefl _)
        · exact hE
      · rcases div_nonneg_iff.1 h3 with ⟨-, hA2⟩ | ⟨hE, -⟩
        · exact absurd (lt_of_lt_of_le hA hA2) (lt_irrefl _)
        · exact hE
    · left
      refine ⟨hA, ?_, ?_, ?_⟩
      · rcases div_nonneg_iff.1 h1 with ⟨hE, -⟩ | ⟨-, hA2⟩
        · exact hE
        · exact absurd (lt_of_le_of_lt hA2 hA) (lt_irrefl _)
      · rcases div_nonneg_iff.1 h2 with ⟨hE, -⟩ | ⟨-, hA2⟩
        · exact hE
        · exact absurd (lt_of_le_of_lt hA2 hA) (lt_irrefl _)
      · rcases div_nonneg_iff.1 h3 with ⟨hE, -⟩ | ⟨-, hA2⟩
        · exact hE
        · exact absurd (lt_of_le_of_lt hA2 hA) (lt_irrefl _)
  have hxb := convex_comb_bounds (edge_sum a b c p)
    (edge_coord_x a b c p).symm
    (min_le_of_left_le (min_le_left _ _))
    (min_le_of_left_le (min_le_right _ _)) (min_le_right _ _)
    (le_max_of_le_left (le_max_left _ _))
    (le_max_of_le_left (le_max_right _ _)) (le_max_right _ _) hsigns
  have hyb := convex_comb_bounds (edge_sum a b c p)
    (edge_coord_y a b c p).symm
    (min_le_of_left_le (min_le_left _ _))
    (min_le_of_left_le (min_le_right _ _)) (min_le_right _ _)
    (le_max_of_le_left (le_max_left _ _))
    (le_max_of_le_left (le_max_right _ _)) (le_max_right _ _) hsigns
  have hpx : vx p = (x : ℚ) + 1/2 := rfl
  have hpy : vy p = (y : ℚ) + 1/2 := rfl
  simp only [calculate_bounding_box]
  refine ⟨⟨?_, ?_⟩, ?_, ?_⟩
  · have hfl : ((ratFloor (min (min (vx a) (vx b)) (vx c)) : ℤ) : ℚ)
        ≤ min (min (vx a) (vx b)) (vx c) := by
      rw [ratFloor_eq]
      exact Int.floor_le _
    have hle : ((ratFloor (min (min (vx a) (vx b)) (vx c)) : ℤ) : ℚ)
        ≤ (x : ℚ) + 1/2 := le_trans hfl (by rw [← hpx]; exact hxb.1)
    by_contra hlt
    push_neg at hlt
    have : ((x : ℚ) + 1 ≤ ((ratFloor (min (min (vx a) (vx b)) (vx c)) : ℤ) : ℚ)) := by
      exact_mod_cast (by omega : x + 1 ≤ ratFloor (min (min (vx a) (vx b)) (vx c)))
    linarith
  · have hcl : min (min (vx a) (vx b)) (vx c) ≤ max (max (vx a) (vx b)) (vx c) := by
      exact le_trans (min_le_right _ _) (le_max_right _ _)
    have hce : max (max (vx a) (vx b)) (vx c)
        ≤ ((ratCeil (max (max (vx a) (vx b)) (vx c)) : ℤ) : ℚ) := by
      rw [ratCeil_eq]
      exact Int.le_ceil _
    have hle : (x : ℚ) + 1/2 ≤ ((ratCeil (max (max (vx a) (vx b)) (vx c)) : ℤ) : ℚ) :=
      le_trans (by rw [← hpx]; exact hxb.2) hce
    by_contra hlt
    push_neg at hlt
    have : ((ratCeil (max (max (vx a) (vx b)) (vx c)) : ℤ) : ℚ) + 1 ≤ (x : ℚ) := by
      exact_mod_cast (by omega : ratCeil (max (max (vx a) (vx b)) (vx c)) + 1 ≤ x)
    linarith
  · have hfl : ((ratFloor (min (min (vy a) (vy b)) (vy c)) : ℤ) : ℚ)
        ≤ min (min (vy a) (vy b)) (vy c) := by
      rw [ratFloor_eq]
      exact Int.floor_le _
    have hle : ((ratFloor (min (min (vy a) (vy b)) (vy c)) : ℤ) : ℚ)
        ≤ (y : ℚ) + 1/2 := le_trans hfl (by rw [← hpy]; exact hyb.1)
    by_contra hlt
    push_neg at hlt
    have : ((y : ℚ) + 1 ≤ ((ratFloor (min (min (vy a) (vy b)) (vy c)) : ℤ) : ℚ)) := by
      exact_mod_cast (by omega : y + 1 ≤ ratFloor (min (min (vy a) (vy b)) (vy c)))
    linarith
  · have hce : max (max (vy a) (vy b)) (vy c)
        ≤ ((ratCeil (max (max (vy a) (vy b)) (vy c)) : ℤ) : ℚ) := by
      rw [ratCeil_eq]
      exact Int.le_ceil _
    have hle : (y : ℚ) + 1/2 ≤ ((ratCeil (max (max (vy a) (vy b)) (vy c)) : ℤ) : ℚ) :=
      le_trans (by rw [← hpy]; exact hyb.2) hce
    by_contra hlt
    push_neg at hlt
    have : ((ratCeil (max (max (vy a) (vy b)) (vy c)) : ℤ) : ℚ) + 1 ≤ (y : ℚ) := by
      exact_mod_cast (by omega : ratCeil (max (max (vy a) (vy b)) (vy c)) + 1 ≤ y)
    linarith

/-- Claim C5 counterexample: a triangle with area magnitude 100, entirely
inside the 680 x 800 viewport but with all y in (600, 620], is rejected by
the hardcoded y > 600 cull, so pixel (102, 612), whose sample center lies
strictly inside it (all three barycentric weights non-negative), receives no
fragment at all. -/
theorem raster_misses_covered_pixel :
    1/10 ≤ |edge_function (100, 610, 0) (110, 610, 0) (100, 620, 0)| ∧
    insideTri (testVert (100, 610, 0)) (testVert (110, 610, 0))
      (testVert (100, 620, 0)) 102 612 ∧
    triangle (testVert (100, 610, 0)) (testVert (110, 610, 0))
      (testVert (100, 620, 0)) = [] :=
  ⟨by decide, by decide, by decide⟩

/-- Claim C5 as amended: for every triangle with signed area of magnitude at
least the degeneracy epsilon 0.1 that is not rejected by the hardcoded early
cull, the rasterizer emits exactly one fragment per integer pixel whose
sample center (x + 0.5, y + 0.5) has all three barycentric weights
non-negative, and no fragment for any other pixel. -/
theorem raster_exact_coverage (v1 v2 v3 : Vtx) (x y : ℤ)
    (hcull : culled v1.transformed_position v2.transformed_position
        v3.transformed_position = false)
    (harea : 1/10 ≤ |edge_function v1.transformed_position
        v2.transformed_position v3.transformed_position|) :
    (triangle v1 v2 v3).countP (fun f => decide (f.x = x ∧ f.y = y))
      = if insideTri v1 v2 v3 x y then 1 else 0 := by
  have harea0 : edge_function v1.transformed_position v2.transformed_position
      v3.transformed_position ≠ 0 := by
    intro h0
    rw [h0] at harea
    norm_num at harea
  have hndeg : ¬ (|edge_function v1.transformed_position
      v2.transformed_position v3.transformed_position| < 1/10) :=
    not_lt.2 harea
  simp only [triangle, hcull, Bool.false_eq_true, if_false, hndeg]
  rw [countP_flatMap]
  rw [sum_map_single _ _ y (intRange_nodup _ _) ?rows]
  case rows =>
    intro y2 _ hne
    apply List.countP_eq_zero.2
    intro f hf
    rcases List.mem_filterMap.1 hf with ⟨x2, -, hfx⟩
    rcases pixelFrag_coords hfx with ⟨-, hfy⟩
    simp only [decide_eq_true_eq]
    rintro ⟨-, hfy2⟩
    exact hne (by rw [← hfy, hfy2])
  rw [countP_filterMap_single _ _ _ x (intRange_nodup _ _) ?key]
  case key =>
    intro x2 f hf
    rcases pixelFrag_coords hf with ⟨hfx, hfy⟩
    simp only [decide_eq_true_eq]
    constructor
    · rintro ⟨hfx2, -⟩
      rw [← hfx, hfx2]
    · rintro rfl
      exact ⟨hfx, hfy⟩
  by_cases hin : insideTri v1 v2 v3 x y
  · rw [if_pos hin]
    obtain ⟨⟨hx1, hx2⟩, hy1, hy2⟩ := inside_bbox harea0 hin
    rw [if_pos (mem_intRange.2 ⟨hy1, hy2⟩),
      if_pos ⟨mem_intRange.2 ⟨hx1, hx2⟩, pixelFrag_isSome.2 hin⟩]
  · rw [if_neg hin]
    have hns : ¬ (x ∈ intRange (calculate_bounding_box v1.transformed_position
        v2.transformed_position v3.transformed_position).1
          (calculate_bounding_box v1.transformed_position
            v2.transformed_position v3.transformed_position).2.2.1 ∧
        (pixelFrag v1 v2 v3 x y).isSome = true) := by
      rintro ⟨-, hs⟩
      exact hin (pixelFrag_isSome.1 hs)
    rw [if_neg hns, ite_self]

set_option maxHeartbeats 1000000 in
/-- Witness for the amended C5: the triangle (0,0), (2,0), (0,2), whose
pixel (0, 0) has sample center (0.5, 0.5) strictly inside. -/
theorem raster_exact_coverage_witness :
    culled (testVert (0, 0, 0)).transformed_position
      (testVert (2, 0, 0)).transformed_position
      (testVert (0, 2, 0)).transformed_position = false ∧
    1/10 ≤ |edge_function (testVert (0, 0, 0)).transformed_position
      (testVert (2, 0, 0)).transformed_position
      (testVert (0, 2, 0)).transformed_position| ∧
    (triangle (testVert (0, 0, 0)) (testVert (2, 0, 0))
        (testVert (0, 2, 0))).countP
        (fun f => decide (f.x = 0 ∧ f.y = 0))
      = if insideTri (testVert (0, 0, 0)) (testVert (2, 0, 0))
          (testVert (0, 2, 0)) 0 0 then 1 else 0 :=
  ⟨by decide, by decide,
   raster_exact_coverage (testVert (0, 0, 0)) (testVert (2, 0, 0))
     (testVert (0, 2, 0)) 0 0 (by decide) (by decide)⟩

end SpaceTravel
